import Mathlib

/-!
Verification development for the AdventureCoin block-explorer read-side
engine.  The definitions below are a shallow embedding of the engine's
data model and public view operations: MongoDB collections become Lean
lists, aggregation pipelines become list functions, JavaScript numbers
that hold exact integers become `Nat`/`Int`, fractional coin amounts and
difficulties become `Rat`, and fallible storage/RPC calls become
`Except Unit`-valued behaviours supplied as parameters.  Each public
operation is translated from its function in `lib/explorer` (the
`getXxx` exports) and `lib/price`, keeping the source's names.
-/

namespace AdvcExplorer

/-- One entry of a confirmed transaction's `vin` array: an address string
(or the sentinel `"coinbase"`) plus an amount in smallest units. -/
structure TxInput where
  addresses : String
  amount : Int
deriving DecidableEq

/-- One entry of a confirmed transaction's `vout` array. -/
structure TxOutput where
  addresses : String
  amount : Int
deriving DecidableEq

/-- A document of the `txes` collection (a confirmed transaction). -/
structure TransactionRecord where
  txid : String
  blockhash : String
  blockindex : Nat
  timestamp : Nat
  vin : List TxInput
  vout : List TxOutput
deriving DecidableEq

/-- A document of the `networkhistories` collection. -/
structure NetworkHistorySnapshot where
  blockindex : Nat
  timestamp : Nat
  difficulty_pow : Rat
  difficulty_pos : Rat
  nethash : Rat
deriving DecidableEq

/-- A document of the optional dedicated `blocks` collection. -/
structure BlockRecord where
  height : Nat
  hash : String
  difficulty : Rat
  timestamp : Nat
deriving DecidableEq

/-- The single `coinstats` document. -/
structure CoinStats where
  count : Nat
  supply : Rat
  txes : Nat
  connections : Nat
deriving DecidableEq

/-- A document of the `addresstxes` collection. -/
structure AddressIndexRecord where
  a_id : String
  txid : String
  blockindex : Nat
deriving DecidableEq

/-- Pagination metadata returned by the paginated operations. -/
structure Pagination where
  currentPage : Nat
  totalPages : Nat
  totalItems : Nat
deriving DecidableEq

/-- Embedding of `Math.ceil(totalCount / limit)` on natural inputs. -/
def ceilDiv (a b : Nat) : Nat := (a + b - 1) / b

/-! ### Stable insertion sort

MongoDB's `$sort`/`.sort()` stages are modelled by a stable insertion
sort parameterised by a boolean "may come before" relation. -/

/-- Insert `x` before the first element `y` with `le x y`. -/
def insertLe {α : Type} (le : α → α → Bool) (x : α) : List α → List α
  | [] => [x]
  | y :: ys => if le x y then x :: y :: ys else y :: insertLe le x ys

/-- Stable insertion sort by the boolean relation `le`. -/
def sortByLe {α : Type} (le : α → α → Bool) : List α → List α
  | [] => []
  | x :: xs => insertLe le x (sortByLe le xs)

theorem perm_insertLe {α : Type} (le : α → α → Bool) (x : α) (l : List α) :
    List.Perm (insertLe le x l) (x :: l) := by
  induction l with
  | nil => simp [insertLe]
  | cons y ys ih =>
    by_cases h : le x y
    · simp [insertLe, h]
    · simp only [insertLe, h, if_neg, Bool.false_eq_true, not_false_iff, ite_false]
      exact ((ih.cons y).trans (List.Perm.swap x y ys))

theorem perm_sortByLe {α : Type} (le : α → α → Bool) (l : List α) :
    List.Perm (sortByLe le l) l := by
  induction l with
  | nil => simp [sortByLe]
  | cons x xs ih => exact (perm_insertLe le x (sortByLe le xs)).trans (ih.cons x)

theorem length_sortByLe {α : Type} (le : α → α → Bool) (l : List α) :
    (sortByLe le l).length = l.length :=
  (perm_sortByLe le l).length_eq

theorem mem_sortByLe {α : Type} (le : α → α → Bool) (l : List α) (x : α) :
    x ∈ sortByLe le l ↔ x ∈ l :=
  (perm_sortByLe le l).mem_iff

theorem sorted_insertLe {α : Type} (le : α → α → Bool)
    (htrans : ∀ a b c, le a b = true → le b c = true → le a c = true)
    (htot : ∀ a b, le a b = true ∨ le b a = true)
    (x : α) (l : List α) (hl : l.Pairwise (fun a b => le a b = true)) :
    (insertLe le x l).Pairwise (fun a b => le a b = true) := by
  induction l with
  | nil => simp [insertLe]
  | cons y ys ih =>
    rcases List.pairwise_cons.mp hl with ⟨hy, hys⟩
    by_cases h : le x y
    · simp only [insertLe, h, ite_true]
      refine List.pairwise_cons.mpr ⟨?_, hl⟩
      intro z hz
      rcases List.mem_cons.mp hz with rfl | hz
      · exact h
      · exact htrans x y z h (hy z hz)
    · simp only [insertLe, h, Bool.false_eq_true, not_false_iff, ite_false]
      refine List.pairwise_cons.mpr ⟨?_, ih hys⟩
      intro z hz
      rcases List.mem_cons.mp ((perm_insertLe le x ys).mem_iff.mp hz) with rfl | hz
      · rcases htot z y with hxy | hyx
        · exact absurd hxy h
        · exact hyx
      · exact hy z hz

theorem sorted_sortByLe {α : Type} (le : α → α → Bool)
    (htrans : ∀ a b c, le a b = true → le b c = true → le a c = true)
    (htot : ∀ a b, le a b = true ∨ le b a = true)
    (l : List α) :
    (sortByLe le l).Pairwise (fun a b => le a b = true) := by
  induction l with
  | nil => simp [sortByLe]
  | cons x xs ih => exact sorted_insertLe le htrans htot x (sortByLe le xs) ih

/-! ### Block reconstruction aggregator

Embedding of the `txes` aggregation pipeline shared by `getLatestBlocks`
and `getPaginatedBlocks`: sort by `blockindex` descending, `$group` by
`blockhash` (`$first` height/hash/timestamp, `$sum` txCount, `$push` the
documents), `$addFields` the `minedBy` detection, `$sort` by height
descending. -/

/-- A reconstructed block summary (`DerivedBlock` of the spec). -/
structure DerivedBlock where
  hash : String
  height : Nat
  timestamp : Nat
  txCount : Nat
  minedBy : Option String
deriving DecidableEq

/-- The `$filter` condition of the pipeline: the first element of
`vin.addresses` equals `"coinbase"`. -/
def isCoinbaseTx (t : TransactionRecord) : Bool :=
  match t.vin with
  | [] => false
  | i :: _ => i.addresses == "coinbase"

/-- The `$group`/`$addFields` stages applied to one blockhash group (the
documents pushed for one `_id`):  `txCount` is `$sum: 1`, the scalar
fields come from the group's first document, and `minedBy` is the first
element of `vout.addresses` of the first transaction passing the
coinbase `$filter` (absent when the filter result is empty). -/
def aggBlock (group : List TransactionRecord) : DerivedBlock :=
  { hash := (group.head?.map TransactionRecord.blockhash).getD ""
  , height := (group.head?.map TransactionRecord.blockindex).getD 0
  , timestamp := (group.head?.map TransactionRecord.timestamp).getD 0
  , txCount := group.length
  , minedBy := (group.find? isCoinbaseTx).bind
      (fun t => t.vout.head?.map TxOutput.addresses) }

/-- Comparison for `{ $sort: { blockindex: -1 } }`. -/
def txDescBlockindex (a b : TransactionRecord) : Bool :=
  decide (b.blockindex ≤ a.blockindex)

/-- Comparison for `{ $sort: { height: -1 } }` on derived blocks. -/
def blockDescHeight (a b : DerivedBlock) : Bool :=
  decide (b.height ≤ a.height)

/-- Comparison for `.sort({ timestamp: -1 })` on transactions. -/
def txDescTimestamp (a b : TransactionRecord) : Bool :=
  decide (b.timestamp ≤ a.timestamp)

/-- The whole aggregation pipeline before `$skip`/`$limit`: one derived
block per distinct blockhash, sorted by height descending. -/
def blocksPipeline (txes : List TransactionRecord) : List DerivedBlock :=
  let sorted := sortByLe txDescBlockindex txes
  let hashes := (sorted.map TransactionRecord.blockhash).dedup
  sortByLe blockDescHeight
    (hashes.map (fun h => aggBlock (sorted.filter (fun t => t.blockhash == h))))

/-- Function `getLatestBlocks` (success path): the pipeline with a `$limit`. -/
def getLatestBlocks (txes : List TransactionRecord) (limit : Nat) :
    List DerivedBlock :=
  (blocksPipeline txes).take limit

/-- The `try` body of `getPaginatedBlocks`: distinct-blockhash count
for the pagination, then the pipeline with `$skip`/`$limit`. -/
def getPaginatedBlocksBody (txes : List TransactionRecord) (page limit : Nat) :
    List DerivedBlock × Pagination :=
  let skip := (page - 1) * limit
  let distinctBlockHashes := (txes.map TransactionRecord.blockhash).dedup
  let totalCount := distinctBlockHashes.length
  let totalPages := ceilDiv totalCount limit
  (((blocksPipeline txes).drop skip).take limit,
    { currentPage := page, totalPages := totalPages, totalItems := totalCount })

/-- Function `getPaginatedBlocks` as a public operation: the body runs
on the transaction collection when the storage reads succeed; its catch
branch answers a failed read with no blocks and the fixed pagination
`{currentPage: page, totalPages: 1, totalItems: 0}`.  The outer
`Except.ok` is the resolved promise: the catch makes the operation
itself never reject. -/
def getPaginatedBlocks (txesRead : Except Unit (List TransactionRecord))
    (page limit : Nat) : Except Unit (List DerivedBlock × Pagination) :=
  match txesRead with
  | Except.ok txes => Except.ok (getPaginatedBlocksBody txes page limit)
  | Except.error _ =>
    Except.ok ([], { currentPage := page, totalPages := 1, totalItems := 0 })

/-- Function `getPaginatedTransactions`: count, then `.sort({timestamp:-1})` with
`.skip`/`.limit`. -/
def getPaginatedTransactions (txes : List TransactionRecord) (page limit : Nat) :
    List TransactionRecord × Pagination :=
  let totalCount := txes.length
  let totalPages := ceilDiv totalCount limit
  let skip := (page - 1) * limit
  (((sortByLe txDescTimestamp txes).drop skip).take limit,
    { currentPage := page, totalPages := totalPages, totalItems := totalCount })

/-- Lemma: `List.find?` returns the unique element satisfying the predicate. -/
theorem find?_eq_of_unique {α : Type} (p : α → Bool) (l : List α) (a : α)
    (ha : a ∈ l) (hpa : p a = true)
    (huniq : ∀ b ∈ l, p b = true → b = a) :
    l.find? p = some a := by
  induction l with
  | nil => cases ha
  | cons x xs ih =>
    by_cases hx : p x
    · rw [List.find?_cons_of_pos _ hx]
      exact congrArg some (huniq x (List.mem_cons_self x xs) hx)
    · rw [List.find?_cons_of_neg _ (by simpa using hx)]
      have hax : a ∈ xs := by
        rcases List.mem_cons.mp ha with rfl | h
        · exact absurd hpa hx
        · exact h
      exact ih hax (fun b hb hpb => huniq b (List.mem_cons_of_mem x hb) hpb)

/-- The number of derived blocks produced by the pipeline equals the
number of distinct blockhashes in the collection. -/
theorem length_blocksPipeline (txes : List TransactionRecord) :
    (blocksPipeline txes).length
      = ((txes.map TransactionRecord.blockhash).dedup).length := by
  unfold blocksPipeline
  rw [length_sortByLe, List.length_map]
  exact (((perm_sortByLe txDescBlockindex txes).map
    TransactionRecord.blockhash).dedup).length_eq

/-- Claim C1: for every set of TransactionRecords sharing a blockhash,
the derived block produced by the block aggregation (the pipeline of
`getPaginatedBlocks` / `getLatestBlocks`) has `txCount` equal to the
group size, and `minedBy` equal to the first output address of the
transaction in the group whose first input carries the `"coinbase"`
marker; if no transaction in the group has a coinbase-marked first
input, `minedBy` is null. -/
theorem claim_C1_block_aggregation (bh : String)
    (group : List TransactionRecord)
    (hbh : ∀ t ∈ group, t.blockhash = bh) :
    (aggBlock group).txCount = group.length ∧
    ((∀ t ∈ group, isCoinbaseTx t = false) → (aggBlock group).minedBy = none) ∧
    (∀ cb ∈ group, isCoinbaseTx cb = true →
      (∀ u ∈ group, isCoinbaseTx u = true → u = cb) →
      (aggBlock group).minedBy = cb.vout.head?.map TxOutput.addresses) := by
  refine ⟨rfl, ?_, ?_⟩
  · intro hnone
    have : group.find? isCoinbaseTx = none :=
      List.find?_eq_none.mpr (fun t ht => by simp [hnone t ht])
    simp [aggBlock, this]
  · intro cb hcb hpcb huniq
    have : group.find? isCoinbaseTx = some cb :=
      find?_eq_of_unique isCoinbaseTx group cb hcb hpcb huniq
    simp [aggBlock, this]

/-- Concrete instance of C1: a two-transaction block whose second
transaction is the coinbase one. -/
theorem claim_C1_witness :
    (aggBlock
      [⟨"t2", "B", 5, 100, [⟨"Aaddr", 1⟩], [⟨"Baddr", 1⟩]⟩,
       ⟨"t1", "B", 5, 100, [⟨"coinbase", 0⟩], [⟨"Maddr", 300⟩]⟩]).txCount = 2 ∧
    (aggBlock
      [⟨"t2", "B", 5, 100, [⟨"Aaddr", 1⟩], [⟨"Baddr", 1⟩]⟩,
       ⟨"t1", "B", 5, 100, [⟨"coinbase", 0⟩], [⟨"Maddr", 300⟩]⟩]).minedBy
      = some "Maddr" := by
  have h := claim_C1_block_aggregation "B"
    [⟨"t2", "B", 5, 100, [⟨"Aaddr", 1⟩], [⟨"Baddr", 1⟩]⟩,
     ⟨"t1", "B", 5, 100, [⟨"coinbase", 0⟩], [⟨"Maddr", 300⟩]⟩]
    (by decide)
  refine ⟨h.1, ?_⟩
  exact (h.2.2 ⟨"t1", "B", 5, 100, [⟨"coinbase", 0⟩], [⟨"Maddr", 300⟩]⟩
    (by decide) (by decide) (by decide)).trans rfl

/-- Claim C2 as stated is false on the error path of
`getPaginatedBlocks`: the catch branch returns the fixed pagination
`{totalPages: 1, totalItems: 0}`, and `ceil(0 / 20) = 0 ≠ 1`. -/
theorem claim_C2_counterexample :
    getPaginatedBlocks (Except.error ()) 1 20
      = Except.ok ([],
          { currentPage := 1, totalPages := 1, totalItems := 0 }) ∧
    ({ currentPage := 1, totalPages := 1, totalItems := 0 } :
        Pagination).totalPages
      ≠ ceilDiv ({ currentPage := 1, totalPages := 1, totalItems := 0 } :
          Pagination).totalItems 20 :=
  ⟨rfl, by decide⟩

/-- Claim C2 (amended): for `getPaginatedTransactions`, and for
`getPaginatedBlocks` whenever its storage reads succeed, the returned
pagination satisfies `totalPages = ceil(totalCount / limit)` (with
`limit > 0`), and every valid page in `[1, totalPages]` has slice
length `min(limit, totalCount - (page-1)*limit)`, never exceeding
`limit`; when a storage read fails, the catch branch of
`getPaginatedBlocks` instead returns no blocks with the fixed
pagination `{currentPage: page, totalPages: 1, totalItems: 0}`, which
does not satisfy the ceil relation. -/
theorem claim_C2_pagination (txes : List TransactionRecord)
    (page limit : Nat) (hlim : 0 < limit) (hpage : 1 ≤ page) :
    getPaginatedBlocks (Except.ok txes) page limit
      = Except.ok (getPaginatedBlocksBody txes page limit) ∧
    ((getPaginatedBlocksBody txes page limit).2.totalPages
        = ceilDiv (getPaginatedBlocksBody txes page limit).2.totalItems
            limit) ∧
    (page ≤ (getPaginatedBlocksBody txes page limit).2.totalPages →
      ((getPaginatedBlocksBody txes page limit).1.length
          = min limit
              ((getPaginatedBlocksBody txes page limit).2.totalItems
                - (page - 1) * limit) ∧
        (getPaginatedBlocksBody txes page limit).1.length ≤ limit)) ∧
    ((getPaginatedTransactions txes page limit).2.totalPages
        = ceilDiv (getPaginatedTransactions txes page limit).2.totalItems
            limit) ∧
    (page ≤ (getPaginatedTransactions txes page limit).2.totalPages →
      ((getPaginatedTransactions txes page limit).1.length
          = min limit
              ((getPaginatedTransactions txes page limit).2.totalItems
                - (page - 1) * limit) ∧
        (getPaginatedTransactions txes page limit).1.length ≤ limit)) ∧
    getPaginatedBlocks (Except.error ()) page limit
      = Except.ok ([],
          { currentPage := page, totalPages := 1, totalItems := 0 }) := by
  refine ⟨rfl, rfl, ?_, rfl, ?_, rfl⟩
  · intro _
    constructor
    · show (((blocksPipeline txes).drop ((page - 1) * limit)).take limit).length = _
      rw [List.length_take, List.length_drop, length_blocksPipeline]
      rfl
    · show (((blocksPipeline txes).drop ((page - 1) * limit)).take limit).length ≤ limit
      rw [List.length_take]
      exact Nat.min_le_left _ _
  · intro _
    constructor
    · show (((sortByLe txDescTimestamp txes).drop ((page - 1) * limit)).take
        limit).length = _
      rw [List.length_take, List.length_drop, length_sortByLe]
      rfl
    · show (((sortByLe txDescTimestamp txes).drop ((page - 1) * limit)).take
        limit).length ≤ limit
      rw [List.length_take]
      exact Nat.min_le_left _ _

/-- Concrete instance of C2 (amended): three distinct blocks,
`limit = 2`, `page = 2` gives a final page of one block and
`totalPages = 2` on the success path. -/
theorem claim_C2_witness :
    (getPaginatedBlocksBody
      [⟨"t1", "B1", 1, 10, [], []⟩, ⟨"t2", "B2", 2, 20, [], []⟩,
       ⟨"t3", "B3", 3, 30, [], []⟩] 2 2).2.totalPages = 2 ∧
    (getPaginatedBlocksBody
      [⟨"t1", "B1", 1, 10, [], []⟩, ⟨"t2", "B2", 2, 20, [], []⟩,
       ⟨"t3", "B3", 3, 30, [], []⟩] 2 2).1.length = 1 := by
  have h := claim_C2_pagination
    [⟨"t1", "B1", 1, 10, [], []⟩, ⟨"t2", "B2", 2, 20, [], []⟩,
     ⟨"t3", "B3", 3, 30, [], []⟩] 2 2 (by decide) (by decide)
  refine ⟨by decide, ?_⟩
  exact ((h.2.2.1 (by decide)).1).trans (by decide)

/-! ### Network and mining statistics calculator

`getNetworkStats` wraps its whole body in a recovery handler and also
substitutes zeros when the `coinstats` document is missing.
`getMiningStats` has no such top-level handler: it dereferences
`coinStats.count` without a null check and its storage reads sit outside
any `try`, so those failures propagate to the caller.  Storage and RPC
behaviours are passed in as `Except Unit`-valued parameters. -/

/-- The deterministic halving-schedule computation of `getMiningStats`
(`blockReward = 300`, `halvingInterval = 300000`, `blockTime = 180`). -/
structure HalvingStats where
  currentHalvingCycle : Nat
  currentReward : Rat
  nextHalvingHeight : Nat
  blocksUntilHalving : Nat
  daysUntilHalving : Rat
deriving DecidableEq

/-- The halving arithmetic block of `getMiningStats`. -/
def halvingStats (currentBlock : Nat) : HalvingStats :=
  let blockReward : Rat := 300
  let halvingInterval : Nat := 300000
  let blockTime : Nat := 180
  let currentHalvingCycle := currentBlock / halvingInterval
  let currentReward := blockReward / 2 ^ currentHalvingCycle
  let nextHalvingHeight := (currentHalvingCycle + 1) * halvingInterval
  let blocksUntilHalving := nextHalvingHeight - currentBlock
  let daysUntilHalving : Rat :=
    ((blocksUntilHalving * blockTime : Nat) : Rat) / (60 * 60 * 24)
  ⟨currentHalvingCycle, currentReward, nextHalvingHeight,
    blocksUntilHalving, daysUntilHalving⟩

/-- The view returned by `getNetworkStats`. -/
structure NetworkStats where
  count : Nat
  supply : Rat
  txes : Nat
  connections : Nat
  nethash : Rat
  difficulty_pow : Rat
  difficulty_pos : Rat
deriving DecidableEq

/-- The zeroed fallback value of `getNetworkStats`. -/
def networkStatsFallback : NetworkStats := ⟨0, 0, 0, 0, 0, 0, 0⟩

/-- Storage behaviour consumed by `getNetworkStats`. -/
structure NetworkStatsDb where
  coinstats : Except Unit (Option CoinStats)
  latestNetworkHistory : Except Unit (Option NetworkHistorySnapshot)

/-- The body of `getNetworkStats` before its recovery handler: a missing
`coinstats` document yields the fallback, a throwing read propagates. -/
def getNetworkStatsBody (db : NetworkStatsDb) : Except Unit NetworkStats := do
  let cs? ← db.coinstats
  match cs? with
  | none => pure networkStatsFallback
  | some cs => do
    let nh? ← db.latestNetworkHistory
    pure { count := cs.count, supply := cs.supply, txes := cs.txes,
           connections := cs.connections,
           nethash := ((nh?.map NetworkHistorySnapshot.nethash).getD 0) / 1000,
           difficulty_pow :=
             (nh?.map NetworkHistorySnapshot.difficulty_pow).getD 0,
           difficulty_pos :=
             (nh?.map NetworkHistorySnapshot.difficulty_pos).getD 0 }

/-- Function `getNetworkStats`: the body wrapped in its recovery handler, which
turns any storage failure into the zeroed fallback. -/
def getNetworkStats (db : NetworkStatsDb) : Except Unit NetworkStats :=
  match getNetworkStatsBody db with
  | Except.ok v => Except.ok v
  | Except.error _ => Except.ok networkStatsFallback

/-- Function `getLatestBlocks` as a public operation: the aggregation behaviour
(its success value fed to the pure pipeline) wrapped in the recovery
handler that returns an empty list on failure. -/
def getLatestBlocksOp (agg : Except Unit (List TransactionRecord))
    (limit : Nat) : Except Unit (List DerivedBlock) :=
  match agg with
  | Except.ok txes => Except.ok (getLatestBlocks txes limit)
  | Except.error _ => Except.ok []

/-- Function `getRecentTransactions` as a public operation: the
`.sort({timestamp:-1}).limit(limit)` read wrapped in the recovery
handler that returns an empty list on failure. -/
def getRecentTransactions (txesRead : Except Unit (List TransactionRecord))
    (limit : Nat) : Except Unit (List TransactionRecord) :=
  match txesRead with
  | Except.ok txes => Except.ok ((sortByLe txDescTimestamp txes).take limit)
  | Except.error _ => Except.ok []

/-- Storage behaviour consumed by `getNextBlockHash`: the `blocks`
lookup at `height + 1` and the fallback `txes` lookup at
`blockindex = height + 1` (earliest by timestamp). -/
structure NextBlockDb where
  blocksFindNext : Except Unit (Option BlockRecord)
  txesFindNext : Except Unit (Option TransactionRecord)

/-- The `try` body of `getNextBlockHash`: prefer the dedicated block
store, fall back to the transaction at the next height, else null. -/
def getNextBlockHashBody (db : NextBlockDb) : Except Unit (Option String) := do
  let nextBlock ← db.blocksFindNext
  match nextBlock with
  | some b => pure (some b.hash)
  | none => do
    let nextBlockTx ← db.txesFindNext
    match nextBlockTx with
    | some t => pure (some t.blockhash)
    | none => pure none

/-- Function `getNextBlockHash` as a public operation: the body wrapped
in the recovery handler that returns null on failure. -/
def getNextBlockHash (db : NextBlockDb) : Except Unit (Option String) :=
  match getNextBlockHashBody db with
  | Except.ok v => Except.ok v
  | Except.error _ => Except.ok none

/-- A document of the `peerinfo` collection (only the sort key is
relevant here). -/
structure PeerRecord where
  addr : String
  lastsend : Nat
deriving DecidableEq

/-- Comparison for `.sort({ lastsend: -1 })` on peer records. -/
def peerDescLastsend (a b : PeerRecord) : Bool :=
  decide (b.lastsend ≤ a.lastsend)

/-- Function `getPeerInfo` as a public operation: a non-empty stored
peer list wins; otherwise the RPC call is tried with its own handler;
both the inner and outer handlers return an empty list on failure. -/
def getPeerInfo (dbRead : Except Unit (List PeerRecord))
    (rpc : Except Unit (List PeerRecord)) :
    Except Unit (List PeerRecord) :=
  match dbRead with
  | Except.ok peers =>
    if sortByLe peerDescLastsend peers ≠ [] then
      Except.ok (sortByLe peerDescLastsend peers)
    else
      match rpc with
      | Except.ok rpcPeers => Except.ok rpcPeers
      | Except.error _ => Except.ok []
  | Except.error _ => Except.ok []

/-- Result of the `getmininginfo` RPC call. -/
structure MiningInfoRpc where
  difficulty : Rat
deriving DecidableEq

/-- Storage and RPC behaviour consumed by `getMiningStats`. -/
structure MiningStatsDb where
  coinstats : Except Unit (Option CoinStats)
  latestNetworkHistory : Except Unit (Option NetworkHistorySnapshot)
  getmininginfo : Except Unit MiningInfoRpc
  getnetworkhashps : Except Unit Rat
  findTxAtHeight : Nat → Except Unit (Option TransactionRecord)

/-- The view returned by `getMiningStats` (the fixed halving-checkpoint
display table is omitted: it is presentation data not touched by the
verified properties). -/
structure MiningStats where
  blocks : Nat
  difficulty : Rat
  networkhashps : Rat
  currentReward : Rat
  nextHalvingHeight : Nat
  blocksUntilHalving : Nat
  daysUntilHalving : Rat
  maxSupply : Nat
  currentSupply : Rat
  blockTime : Nat
  retargetInterval : Nat
  specialBlockHashes : List (Option String)

/-- The special-blocks hash lookup loop of `getMiningStats`: the whole
loop sits in one `try`, so a throwing lookup leaves the current and all
later entries without a hash while keeping the earlier ones. -/
def specialBlocksLoop (heights : List Nat)
    (f : Nat → Except Unit (Option TransactionRecord)) :
    List (Option String) :=
  match heights with
  | [] => []
  | h :: rest =>
    match f h with
    | Except.error _ => none :: rest.map (fun _ => none)
    | Except.ok none => none :: specialBlocksLoop rest f
    | Except.ok (some tx) => some tx.blockhash :: specialBlocksLoop rest f

/-- Function `getMiningStats`: no top-level recovery handler.  A missing
`coinstats` document makes `coinStats.count` throw (modelled as
`Except.error`), and the `networkhistories` read also propagates; only
the RPC pair and the special-blocks loop are individually guarded. -/
def getMiningStats (db : MiningStatsDb) : Except Unit MiningStats := do
  let cs? ← db.coinstats
  match cs? with
  | none => Except.error ()
  | some cs => do
    let currentBlock := cs.count
    let nh? ← db.latestNetworkHistory
    let dbDifficulty := (nh?.map NetworkHistorySnapshot.difficulty_pow).getD 0
    let dbNethash := ((nh?.map NetworkHistorySnapshot.nethash).getD 0) / 1000
    let difficulty :=
      match db.getmininginfo with
      | Except.ok mi => if mi.difficulty = 0 then dbDifficulty else mi.difficulty
      | Except.error _ => dbDifficulty
    let networkhashps :=
      match db.getmininginfo, db.getnetworkhashps with
      | Except.ok _, Except.ok hps => if hps = 0 then dbNethash else hps / 1000
      | _, _ => dbNethash
    let hs := halvingStats currentBlock
    pure { blocks := currentBlock, difficulty := difficulty,
           networkhashps := networkhashps,
           currentReward := hs.currentReward,
           nextHalvingHeight := hs.nextHalvingHeight,
           blocksUntilHalving := hs.blocksUntilHalving,
           daysUntilHalving := hs.daysUntilHalving,
           maxSupply := 180000000,
           currentSupply := cs.supply,
           blockTime := 180,
           retargetInterval := 3,
           specialBlockHashes := specialBlocksLoop [1, 2, 3] db.findTxAtHeight }

/-- Claim C5: for every current height, `getMiningStats` computes the
halving schedule deterministically as `cycle = floor(h / 300000)`,
`currentReward = 300 / 2^cycle`, `nextHalvingHeight = (cycle+1) *
300000`, `blocksUntilHalving = nextHalvingHeight - h`,
`daysUntilHalving = blocksUntilHalving * 180 / 86400`; height 0 gives
reward 300 and next halving at 300000, height 300000 gives reward 150,
height 450000 gives reward 150 with 150000 blocks until halving. -/
theorem claim_C5_halving_schedule (h : Nat) (cs : CoinStats)
    (nhOpt : Option NetworkHistorySnapshot) (mi : Except Unit MiningInfoRpc)
    (hps : Except Unit Rat)
    (f : Nat → Except Unit (Option TransactionRecord)) :
    (halvingStats h).currentHalvingCycle = h / 300000 ∧
    (halvingStats h).currentReward = 300 / 2 ^ (h / 300000) ∧
    (halvingStats h).nextHalvingHeight = (h / 300000 + 1) * 300000 ∧
    (halvingStats h).blocksUntilHalving = (h / 300000 + 1) * 300000 - h ∧
    (halvingStats h).daysUntilHalving
      = ((((h / 300000 + 1) * 300000 - h) * 180 : Nat) : Rat) / 86400 ∧
    (getMiningStats
        { coinstats := Except.ok (some cs),
          latestNetworkHistory := Except.ok nhOpt,
          getmininginfo := mi, getnetworkhashps := hps,
          findTxAtHeight := f }).map
        (fun r => (r.blocks, r.currentReward, r.nextHalvingHeight,
          r.blocksUntilHalving))
      = Except.ok (cs.count, 300 / 2 ^ (cs.count / 300000),
          (cs.count / 300000 + 1) * 300000,
          (cs.count / 300000 + 1) * 300000 - cs.count) ∧
    (halvingStats 0).currentReward = 300 ∧
    (halvingStats 0).nextHalvingHeight = 300000 ∧
    (halvingStats 300000).currentReward = 150 ∧
    (halvingStats 450000).currentReward = 150 ∧
    (halvingStats 450000).blocksUntilHalving = 150000 := by
  refine ⟨rfl, rfl, rfl, rfl, ?_,
    rfl,
    by norm_num [halvingStats],
    by norm_num [halvingStats],
    by norm_num [halvingStats],
    by norm_num [halvingStats],
    by norm_num [halvingStats]⟩
  show ((((h / 300000 + 1) * 300000 - h) * 180 : Nat) : Rat) / (60 * 60 * 24)
    = ((((h / 300000 + 1) * 300000 - h) * 180 : Nat) : Rat) / 86400
  norm_num

/-! ### Price cache (`lib/price`, `getADVCPrice`) -/

/-- Constant `CACHE_DURATION` in milliseconds (20 minutes). -/
def CACHE_DURATION : Nat := 20 * 60 * 1000

/-- The module-level `priceCache` slot. -/
structure PriceCacheEntry where
  price : String
  timestamp : Nat
deriving DecidableEq

/-- Observable outcome of one `getADVCPrice` call: the returned string,
the cache slot afterwards, and whether the external fetch was
attempted. -/
structure PriceStep where
  result : String
  newCache : Option PriceCacheEntry
  fetchAttempted : Bool
deriving DecidableEq

/-- One call of `getADVCPrice`.  `now` is `Date.now()`; `fetchResult` is
the outcome of the external fetch, `some p` when the request succeeds
and the quote formats to the string `p`, `none` for any failure (network
error, bad status, malformed body).  A valid cache entry is returned
without fetching; an expired one is refreshed, the old entry serving as
fallback when the fetch fails; with no entry at all a failed fetch
yields the fixed default string. -/
def getADVCPrice (cache : Option PriceCacheEntry) (now : Nat)
    (fetchResult : Option String) : PriceStep :=
  match cache with
  | some c =>
    if now - c.timestamp < CACHE_DURATION then
      { result := c.price, newCache := some c, fetchAttempted := false }
    else
      match fetchResult with
      | some p =>
        { result := p, newCache := some ⟨p, now⟩, fetchAttempted := true }
      | none =>
        { result := c.price, newCache := some c, fetchAttempted := true }
  | none =>
    match fetchResult with
    | some p =>
      { result := p, newCache := some ⟨p, now⟩, fetchAttempted := true }
    | none =>
      { result := "0.000000", newCache := none, fetchAttempted := true }

/-- A sequence of `getADVCPrice` calls, each step a `(now, fetchResult)`
pair, threading the module-level cache slot; returns the list of
returned strings and the final cache slot. -/
def runPriceQueries (cache : Option PriceCacheEntry) :
    List (Nat × Option String) → List String × Option PriceCacheEntry
  | [] => ([], cache)
  | (now, fetchResult) :: rest =>
    let s := getADVCPrice cache now fetchResult
    let r := runPriceQueries s.newCache rest
    (s.result :: r.1, r.2)

/-- Claim C4: if a successful fetch at time `T` stored price `P`, a
query at `Tq` with `Tq - T < CACHE_DURATION` returns `P` without
attempting a fetch; at `Tq - T ≥ CACHE_DURATION` a refresh is
attempted, a failing fetch still returning the cached `P` (a succeeding
one returning and storing the new price); with an empty cache and a
failing fetch the fixed default string `"0.000000"` is returned, never
an error. -/
theorem claim_C4_price_cache (P : String) (T Tq : Nat)
    (fetchResult : Option String) :
    (Tq - T < CACHE_DURATION →
      getADVCPrice (some ⟨P, T⟩) Tq fetchResult
        = { result := P, newCache := some ⟨P, T⟩, fetchAttempted := false }) ∧
    (CACHE_DURATION ≤ Tq - T →
      (getADVCPrice (some ⟨P, T⟩) Tq fetchResult).fetchAttempted = true ∧
      (fetchResult = none →
        getADVCPrice (some ⟨P, T⟩) Tq fetchResult
          = { result := P, newCache := some ⟨P, T⟩, fetchAttempted := true }) ∧
      (∀ p, fetchResult = some p →
        getADVCPrice (some ⟨P, T⟩) Tq fetchResult
          = { result := p, newCache := some ⟨p, Tq⟩, fetchAttempted := true })) ∧
    (getADVCPrice none Tq none
      = { result := "0.000000", newCache := none, fetchAttempted := true }) := by
  refine ⟨?_, ?_, rfl⟩
  · intro hfresh
    simp [getADVCPrice, hfresh]
  · intro hstale
    have hnot : ¬ (Tq - T < CACHE_DURATION) := Nat.not_lt.mpr hstale
    refine ⟨?_, ?_, ?_⟩
    · cases fetchResult with
      | none => simp [getADVCPrice, hnot]
      | some p => simp [getADVCPrice, hnot]
    · intro hf
      subst hf
      simp [getADVCPrice, hnot]
    · intro p hf
      subst hf
      simp [getADVCPrice, hnot]

/-- Concrete instance of C4: price cached at `T = 0`; a query 19 minutes
later serves the cache without fetching, a query 21 minutes later whose
fetch fails still serves the cached price. -/
theorem claim_C4_witness :
    getADVCPrice (some ⟨"1.234560", 0⟩) 1140000 (some "9.999999")
      = { result := "1.234560", newCache := some ⟨"1.234560", 0⟩,
          fetchAttempted := false } ∧
    getADVCPrice (some ⟨"1.234560", 0⟩) 1260000 none
      = { result := "1.234560", newCache := some ⟨"1.234560", 0⟩,
          fetchAttempted := true } := by
  have h1 := claim_C4_price_cache "1.234560" 0 1140000 (some "9.999999")
  have h2 := claim_C4_price_cache "1.234560" 0 1260000 none
  exact ⟨h1.1 (by decide), (h2.2.1 (by decide)).2.1 rfl⟩

/-- Once the slot holds an entry, every later slot state still holds an
entry, and each returned string is the current cached price or a
freshly fetched one. -/
theorem runPriceQueries_nonempty_cache (steps : List (Nat × Option String)) :
    ∀ c : PriceCacheEntry,
      ((runPriceQueries (some c) steps).2).isSome = true ∧
      ∀ r ∈ (runPriceQueries (some c) steps).1,
        r = c.price ∨ ∃ t, (t, some r) ∈ steps := by
  induction steps with
  | nil =>
    intro c
    exact ⟨rfl, fun r hr => absurd hr (List.not_mem_nil r)⟩
  | cons s rest ih =>
    intro c
    obtain ⟨now, fetchResult⟩ := s
    by_cases hfresh : now - c.timestamp < CACHE_DURATION
    · constructor
      · simpa [runPriceQueries, getADVCPrice, hfresh] using (ih c).1
      · intro r hr
        simp only [runPriceQueries, getADVCPrice, hfresh, if_true,
          List.mem_cons] at hr
        rcases hr with rfl | hr
        · exact Or.inl rfl
        · rcases (ih c).2 r hr with h | ⟨t, ht⟩
          · exact Or.inl h
          · exact Or.inr ⟨t, List.mem_cons_of_mem _ ht⟩
    · cases fetchResult with
      | none =>
        constructor
        · simpa [runPriceQueries, getADVCPrice, hfresh] using (ih c).1
        · intro r hr
          simp only [runPriceQueries, getADVCPrice, hfresh, if_false,
            List.mem_cons] at hr
          rcases hr with rfl | hr
          · exact Or.inl rfl
          · rcases (ih c).2 r hr with h | ⟨t, ht⟩
            · exact Or.inl h
            · exact Or.inr ⟨t, List.mem_cons_of_mem _ ht⟩
      | some p =>
        constructor
        · simpa [runPriceQueries, getADVCPrice, hfresh]
            using (ih ⟨p, now⟩).1
        · intro r hr
          simp only [runPriceQueries, getADVCPrice, hfresh, if_false,
            List.mem_cons] at hr
          rcases hr with rfl | hr
          · exact Or.inr ⟨now, List.mem_cons_self _ _⟩
          · rcases (ih ⟨p, now⟩).2 r hr with h | ⟨t, ht⟩
            · exact Or.inr ⟨now, by simp [h]⟩
            · exact Or.inr ⟨t, List.mem_cons_of_mem _ ht⟩

/-- Claim C9: the cache slot, once non-empty, is never cleared or
invalidated; consequently after the first successful fetch every later
call returns either a freshly fetched price or the last cached price —
the default-string branch is never taken again. -/
theorem claim_C9_cache_never_cleared (c : PriceCacheEntry) (now : Nat)
    (fetchResult : Option String) (steps : List (Nat × Option String)) :
    ((getADVCPrice (some c) now fetchResult).newCache).isSome = true ∧
    ((runPriceQueries (some c) steps).2).isSome = true ∧
    ∀ r ∈ (runPriceQueries (some c) steps).1,
      r = c.price ∨ ∃ t, (t, some r) ∈ steps := by
  refine ⟨?_, (runPriceQueries_nonempty_cache steps c).1,
    (runPriceQueries_nonempty_cache steps c).2⟩
  by_cases hfresh : now - c.timestamp < CACHE_DURATION
  · simp [getADVCPrice, hfresh]
  · cases fetchResult with
    | none => simp [getADVCPrice, hfresh]
    | some p => simp [getADVCPrice, hfresh]

/-- Concrete instance of C9: a populated cache stays populated across a
stale query whose refresh fails. -/
theorem claim_C9_witness :
    ((getADVCPrice (some ⟨"1.234560", 0⟩) 5000000 none).newCache).isSome
      = true ∧
    ((runPriceQueries (some ⟨"1.234560", 0⟩)
        [(5000000, none), (6000000, some "2.000000")]).2).isSome = true := by
  have h := claim_C9_cache_never_cleared ⟨"1.234560", 0⟩ 5000000 none
    [(5000000, none), (6000000, some "2.000000")]
  exact ⟨h.1, h.2.1⟩

/-! ### Mempool enrichment pipeline

Embedding of the per-transaction enrichment of `getMempoolTransactions`
and of the mempool path of `getTransactionById`: a verbose
`getrawtransaction` result is folded into `vin`/`vout` lists, an output
total in smallest units, and (in the mempool pipeline) a whole-coin
`value`. -/

/-- The `scriptPubKey` of a raw RPC transaction output. -/
structure RawScriptPubKey where
  addresses : List String
deriving DecidableEq

/-- An output of a verbose `getrawtransaction` result; `value` is the
whole-coin amount. -/
structure RawOutput where
  value : Rat
  scriptPubKey : RawScriptPubKey
deriving DecidableEq

/-- An input of a verbose `getrawtransaction` result: either a coinbase
input or a reference to a previous transaction. -/
structure RawInput where
  coinbase : Bool
  txid : Option String
deriving DecidableEq

/-- A verbose `getrawtransaction` result. -/
structure RawTransaction where
  txid : String
  vin : List RawInput
  vout : List RawOutput
deriving DecidableEq

/-- A raw mempool entry (stored snapshot or RPC listing). -/
structure MempoolEntry where
  txid : String
  size : Nat
  time : Nat
  fee : Rat
deriving DecidableEq

/-- An enriched mempool transaction as returned by
`getMempoolTransactions`: `total` in smallest units, `value` in whole
coins. -/
structure EnrichedMempoolTx where
  txid : String
  size : Nat
  time : Nat
  fee : Rat
  vin : List TxInput
  vout : List TxOutput
  total : Int
  value : Rat
deriving DecidableEq

/-- Embedding of `Math.round` on an exact rational. -/
def jsRound (q : Rat) : Int := ⌊q + 1 / 2⌋

/-- The output loop of the `getMempoolTransactions` enrichment: each
output carrying at least one address contributes its first address and
its amount converted to smallest units (`Math.round(value * 1e8)`), and
that amount is added to the running total; an output with no address is
skipped entirely. -/
def processMempoolVout : List RawOutput → List TxOutput × Int
  | [] => ([], 0)
  | o :: rest =>
    match o.scriptPubKey.addresses with
    | [] => processMempoolVout rest
    | a :: _ =>
      let amount := jsRound (o.value * 100000000)
      let r := processMempoolVout rest
      (⟨a, amount⟩ :: r.1, amount + r.2)

/-- The identical output loop as written in the mempool path of
`getTransactionById` (`processedTx.vout` / `processedTx.total`). -/
def processTxDetailVout : List RawOutput → List TxOutput × Int
  | [] => ([], 0)
  | o :: rest =>
    match o.scriptPubKey.addresses with
    | [] => processTxDetailVout rest
    | a :: _ =>
      let amount := jsRound (o.value * 100000000)
      let r := processTxDetailVout rest
      (⟨a, amount⟩ :: r.1, amount + r.2)

/-- The input loop of the `getMempoolTransactions` enrichment: coinbase
inputs get the explicit `"coinbase"` marker, inputs referencing a
previous transaction get the generic `"input"` marker, both with zero
amount (previous-output chasing is intentionally skipped here). -/
def processMempoolVin (ins : List RawInput) : List TxInput :=
  ins.filterMap (fun i =>
    if i.coinbase then some ⟨"coinbase", 0⟩
    else
      match i.txid with
      | some _ => some ⟨"input", 0⟩
      | none => none)

/-- Enrichment of one mempool entry.  `rawTx = none` covers both a
failed and a null `getRawTransaction`, which produce the zeroed entry;
on success `total` is the accumulated output total and
`value = total / 180000000`. -/
def enrichMempoolTx (tx : MempoolEntry) (rawTx : Option RawTransaction) :
    EnrichedMempoolTx :=
  match rawTx with
  | some raw =>
    let r := processMempoolVout raw.vout
    { txid := tx.txid, size := tx.size, time := tx.time, fee := tx.fee,
      vin := processMempoolVin raw.vin, vout := r.1,
      total := r.2, value := (r.2 : Rat) / 180000000 }
  | none =>
    { txid := tx.txid, size := tx.size, time := tx.time, fee := tx.fee,
      vin := [], vout := [], total := 0, value := 0 }

/-- The mempool `stats` record (`size`, `bytes`, `usage`). -/
structure MempoolStats where
  size : Nat
  bytes : Nat
  usage : Nat
deriving DecidableEq

/-- JavaScript `a || b` on a numeric field whose only falsy value here
is zero. -/
def orElseNat (a b : Nat) : Nat := if a = 0 then b else a

/-- Comparison for `.sort({ time: -1 })` on mempool entries. -/
def mempoolDescTime (a b : MempoolEntry) : Bool :=
  decide (b.time ≤ a.time)

/-- Storage and RPC behaviour consumed by `getMempoolTransactions`.
`getRawTransaction` is already total in the source (it catches its own
RPC failure and returns null), hence plain `Option`-valued. -/
structure MempoolDb where
  mempoolFind : Except Unit (List MempoolEntry)
  mempoolstatsFind : Except Unit (Option MempoolStats)
  getmempoolinfo : Except Unit MempoolStats
  getrawmempool : Except Unit (List MempoolEntry)
  getRawTransaction : String → Option RawTransaction
  now : Nat

/-- The `try` body of `getMempoolTransactions`: stored snapshot and
stats as baseline; the inner RPC `try` may update the stats even when
the subsequent raw-mempool call fails, and a non-empty RPC listing
replaces the stored one; the first 20 entries are enriched (a missing
raw transaction yielding the zeroed entry), and the final pass
substitutes the current time for a zero `time`. -/
def getMempoolTransactionsBody (db : MempoolDb) :
    Except Unit (List EnrichedMempoolTx × MempoolStats) := do
  let dbTransactions ← db.mempoolFind
  let storedStats ← db.mempoolstatsFind
  let baseStats := storedStats.getD ⟨0, 0, 0⟩
  let stats :=
    match db.getmempoolinfo with
    | Except.ok info =>
      (⟨orElseNat info.size baseStats.size,
        orElseNat info.bytes baseStats.bytes,
        orElseNat info.usage baseStats.usage⟩ : MempoolStats)
    | Except.error _ => baseStats
  let transactions :=
    match db.getmempoolinfo, db.getrawmempool with
    | Except.ok _, Except.ok rpcTransactions =>
      if rpcTransactions ≠ [] then rpcTransactions
      else sortByLe mempoolDescTime dbTransactions
    | _, _ => sortByLe mempoolDescTime dbTransactions
  let enrichedTransactions := (transactions.take 20).map
    (fun tx => enrichMempoolTx tx (db.getRawTransaction tx.txid))
  let finalTransactions := enrichedTransactions.map
    (fun tx => { tx with time := orElseNat tx.time db.now })
  pure (finalTransactions, stats)

/-- Function `getMempoolTransactions` as a public operation: the body
wrapped in the recovery handler that returns an empty listing with
zeroed stats on failure. -/
def getMempoolTransactions (db : MempoolDb) :
    Except Unit (List EnrichedMempoolTx × MempoolStats) :=
  match getMempoolTransactionsBody db with
  | Except.ok v => Except.ok v
  | Except.error _ => Except.ok ([], ⟨0, 0, 0⟩)

/-- The accumulated total of the mempool output loop is the sum of the
amounts of the recorded outputs. -/
theorem processMempoolVout_total (outs : List RawOutput) :
    (processMempoolVout outs).2
      = ((processMempoolVout outs).1.map TxOutput.amount).sum := by
  induction outs with
  | nil => rfl
  | cons o rest ih =>
    cases ho : o.scriptPubKey.addresses with
    | nil => simpa [processMempoolVout, ho] using ih
    | cons a rest' => simp [processMempoolVout, ho, ih]

/-- Claim C6: mempool enrichment is deterministic and idempotent —
enriching the same raw transaction twice yields identical `total` and
`value`; `total` equals the sum of the (smallest-unit scaled) output
amounts recorded for the transaction, and `value` equals `total`
divided by the fixed units-per-coin constant `180000000`; a transaction
with one output of 5 coins (`500000000` smallest units) to an address
and a coinbase input yields `total = 500000000`. -/
theorem claim_C6_mempool_enrichment (tx : MempoolEntry)
    (raw : RawTransaction) (e1 e2 : EnrichedMempoolTx)
    (h1 : e1 = enrichMempoolTx tx (some raw))
    (h2 : e2 = enrichMempoolTx tx (some raw)) :
    (e1.total = e2.total ∧ e1.value = e2.value) ∧
    e1.total = (e1.vout.map TxOutput.amount).sum ∧
    e1.value = (e1.total : Rat) / 180000000 ∧
    (enrichMempoolTx ⟨"m", 0, 0, 0⟩
        (some ⟨"m", [⟨true, none⟩], [⟨5, ⟨["X"]⟩⟩]⟩)).total = 500000000 := by
  subst h1
  subst h2
  refine ⟨⟨rfl, rfl⟩, processMempoolVout_total raw.vout, rfl, ?_⟩
  show jsRound ((5 : Rat) * 100000000) + 0 = 500000000
  unfold jsRound
  norm_num

/-- Concrete instance of C6. -/
theorem claim_C6_witness :
    (enrichMempoolTx ⟨"m", 0, 0, 0⟩
        (some ⟨"m", [⟨true, none⟩], [⟨5, ⟨["X"]⟩⟩]⟩)).total = 500000000 :=
  (claim_C6_mempool_enrichment ⟨"m", 0, 0, 0⟩
      ⟨"m", [⟨true, none⟩], [⟨5, ⟨["X"]⟩⟩]⟩ _ _ rfl rfl).2.2.2

/-- Claim C10: in both the mempool enrichment and the mempool path of
`getTransactionById`, an output whose `scriptPubKey` carries no address
is excluded entirely — it contributes no `vout` entry and nothing to
`total` — so the computation over any output list equals the
computation over its address-bearing outputs only. -/
theorem claim_C10_addressless_outputs (pre post : List RawOutput)
    (o : RawOutput) (ho : o.scriptPubKey.addresses = [])
    (outs : List RawOutput) :
    processMempoolVout (pre ++ o :: post) = processMempoolVout (pre ++ post) ∧
    processTxDetailVout (pre ++ o :: post)
      = processTxDetailVout (pre ++ post) ∧
    processMempoolVout outs
      = processMempoolVout
          (outs.filter (fun x => !x.scriptPubKey.addresses.isEmpty)) ∧
    processTxDetailVout outs
      = processTxDetailVout
          (outs.filter (fun x => !x.scriptPubKey.addresses.isEmpty)) := by
  refine ⟨?_, ?_, ?_, ?_⟩
  · induction pre with
    | nil => simp [processMempoolVout, ho]
    | cons x xs ih =>
      cases hx : x.scriptPubKey.addresses with
      | nil => simpa [processMempoolVout, hx] using ih
      | cons a rest' => simp [processMempoolVout, hx, ih]
  · induction pre with
    | nil => simp [processTxDetailVout, ho]
    | cons x xs ih =>
      cases hx : x.scriptPubKey.addresses with
      | nil => simpa [processTxDetailVout, hx] using ih
      | cons a rest' => simp [processTxDetailVout, hx, ih]
  · induction outs with
    | nil => rfl
    | cons x xs ih =>
      cases hx : x.scriptPubKey.addresses with
      | nil =>
        simpa [processMempoolVout, List.filter, hx, List.isEmpty] using ih
      | cons a rest' =>
        simp [processMempoolVout, List.filter, hx, List.isEmpty, ih]
  · induction outs with
    | nil => rfl
    | cons x xs ih =>
      cases hx : x.scriptPubKey.addresses with
      | nil =>
        simpa [processTxDetailVout, List.filter, hx, List.isEmpty] using ih
      | cons a rest' =>
        simp [processTxDetailVout, List.filter, hx, List.isEmpty, ih]

/-- Concrete instance of C10: dropping a 7-coin address-less output
changes neither the recorded outputs nor the total. -/
theorem claim_C10_witness :
    processMempoolVout [⟨5, ⟨["X"]⟩⟩, ⟨7, ⟨[]⟩⟩]
      = processMempoolVout [⟨5, ⟨["X"]⟩⟩] :=
  (claim_C10_addressless_outputs [⟨5, ⟨["X"]⟩⟩] [] ⟨7, ⟨[]⟩⟩ rfl []).1

/-! ### Address transaction view -/

/-- An address-index record enriched with its transaction's timestamp. -/
structure EnrichedAddressTx where
  a_id : String
  txid : String
  blockindex : Nat
  timestamp : Nat
deriving DecidableEq

/-- Comparison for `.sort({ blockindex: -1 })` on address index records. -/
def addrTxDescBlockindex (a b : AddressIndexRecord) : Bool :=
  decide (b.blockindex ≤ a.blockindex)

/-- Function `getPaginatedAddressTransactions`: count the index records for the
address, page through them by blockindex descending, then join each
page record against the transaction log for its timestamp, silently
dropping records whose transaction cannot be found. -/
def getPaginatedAddressTransactions (addresstxes : List AddressIndexRecord)
    (txes : List TransactionRecord) (address : String) (page limit : Nat) :
    List EnrichedAddressTx × Pagination :=
  let matching := addresstxes.filter (fun r => r.a_id == address)
  let totalCount := matching.length
  let totalPages := ceilDiv totalCount limit
  let skip := (page - 1) * limit
  let pageRecs :=
    ((sortByLe addrTxDescBlockindex matching).drop skip).take limit
  let enrichedTxs := pageRecs.filterMap (fun r =>
    (txes.find? (fun t => t.txid == r.txid)).map
      (fun t => ⟨r.a_id, r.txid, r.blockindex, t.timestamp⟩))
  (enrichedTxs,
    { currentPage := page, totalPages := totalPages, totalItems := totalCount })

/-- Claim C7: `getPaginatedAddressTransactions` excludes every index
record whose `txid` matches no TransactionRecord — each returned record
joins an existing transaction — while `pagination.totalItems` equals
the count of index records for the address and is therefore unchanged
by such exclusions (it does not depend on the transaction log at
all). -/
theorem claim_C7_address_join (addresstxes : List AddressIndexRecord)
    (txes txes' : List TransactionRecord) (address : String)
    (page limit : Nat) :
    (∀ e ∈ (getPaginatedAddressTransactions addresstxes txes address
        page limit).1, ∃ t ∈ txes, t.txid = e.txid) ∧
    (getPaginatedAddressTransactions addresstxes txes address
        page limit).2.totalItems
      = (addresstxes.filter (fun r => r.a_id == address)).length ∧
    (getPaginatedAddressTransactions addresstxes txes address page limit).2
      = (getPaginatedAddressTransactions addresstxes txes' address
          page limit).2 := by
  refine ⟨?_, rfl, rfl⟩
  intro e he
  simp only [getPaginatedAddressTransactions] at he
  rw [List.mem_filterMap] at he
  obtain ⟨r, hr, hmap⟩ := he
  cases hfind : txes.find? (fun t => t.txid == r.txid) with
  | none =>
    rw [hfind] at hmap
    cases hmap
  | some t =>
    rw [hfind] at hmap
    obtain rfl := Option.some.inj hmap
    exact ⟨t, List.mem_of_find?_eq_some hfind,
      by simpa using List.find?_some hfind⟩

/-- Concrete instance of C7: an index record whose transaction is
missing is dropped from the page while `totalItems` still counts it. -/
theorem claim_C7_witness :
    (getPaginatedAddressTransactions
        [⟨"A", "t1", 1⟩, ⟨"A", "miss", 2⟩]
        [⟨"t1", "B1", 1, 99, [], []⟩] "A" 1 10).2.totalItems = 2 ∧
    ∃ t ∈ ([⟨"t1", "B1", 1, 99, [], []⟩] : List TransactionRecord),
      t.txid = "t1" := by
  have h := claim_C7_address_join [⟨"A", "t1", 1⟩, ⟨"A", "miss", 2⟩]
    [⟨"t1", "B1", 1, 99, [], []⟩] [] "A" 1 10
  exact ⟨h.2.1.trans (by decide), h.1 ⟨"A", "t1", 1, 99⟩ (by decide)⟩

/-! ### Difficulty history builder

Embedding of `getDifficultyHistory`: three cascading sources, first
non-empty wins — the `networkhistories` collection, the dedicated
`blocks` collection, and per-height reconstruction from `txes`. -/

/-- One point of the difficulty chart. -/
structure DifficultyPoint where
  blockHeight : Nat
  difficulty : Rat
  timestamp : Nat
deriving DecidableEq

/-- Comparison for `.sort({ blockindex: -1 })` on network history snapshots. -/
def nhDescBlockindex (a b : NetworkHistorySnapshot) : Bool :=
  decide (b.blockindex ≤ a.blockindex)

/-- Ascending `blockindex` comparison used for chart display order. -/
def nhAscBlockindex (a b : NetworkHistorySnapshot) : Bool :=
  decide (a.blockindex ≤ b.blockindex)

/-- Comparison for `.sort({ height: -1 })` on block records. -/
def blockRecDescHeight (a b : BlockRecord) : Bool :=
  decide (b.height ≤ a.height)

/-- Ascending `height` comparison used for chart display order. -/
def blockRecAscHeight (a b : BlockRecord) : Bool :=
  decide (a.height ≤ b.height)

/-- Ascending `blockHeight` comparison on chart points. -/
def pointAscHeight (a b : DifficultyPoint) : Bool :=
  decide (a.blockHeight ≤ b.blockHeight)

/-- Source (a): the most recent `limit` network history snapshots,
re-sorted ascending and mapped to chart points. -/
def nhDerivation (nhs : List NetworkHistorySnapshot) (limit : Nat) :
    List DifficultyPoint :=
  (sortByLe nhAscBlockindex ((sortByLe nhDescBlockindex nhs).take limit)).map
    (fun h => ⟨h.blockindex, h.difficulty_pow, h.timestamp⟩)

/-- Source (b): the most recent `limit` dedicated block records,
re-sorted ascending and mapped to chart points. -/
def blockDerivation (blocks : List BlockRecord) (limit : Nat) :
    List DifficultyPoint :=
  (sortByLe blockRecAscHeight
      ((sortByLe blockRecDescHeight blocks).take limit)).map
    (fun b => ⟨b.height, b.difficulty, b.timestamp⟩)

/-- Source (c): per-height reconstruction from `txes` — from the latest
known height walk back `limit` heights, keep heights that have a
transaction, attach the difficulty of the nearest snapshot with
`blockindex ≤ height`, and sort ascending. -/
def txReconstruction (nhs : List NetworkHistorySnapshot)
    (txes : List TransactionRecord) (limit : Nat) : List DifficultyPoint :=
  match (sortByLe txDescBlockindex txes).head? with
  | none => []
  | some latest =>
    let latestHeight := latest.blockindex
    let startHeight := max 1 (latestHeight + 1 - limit)
    let blockHeights := ((List.range limit).map (fun i => startHeight + i)).filter
      (fun hgt => decide (hgt ≤ latestHeight))
    let difficultyData := blockHeights.filterMap (fun hgt =>
      match txes.find? (fun t => t.blockindex == hgt) with
      | none => none
      | some tx =>
        let networkData := (sortByLe nhDescBlockindex
          (nhs.filter (fun n => decide (n.blockindex ≤ hgt)))).head?
        some ⟨hgt,
          (networkData.map NetworkHistorySnapshot.difficulty_pow).getD 0,
          tx.timestamp⟩)
    sortByLe pointAscHeight difficultyData

/-- Function `getDifficultyHistory`: cascading source preference, first
non-empty source wins. -/
def getDifficultyHistory (nhs : List NetworkHistorySnapshot)
    (blocks : List BlockRecord) (txes : List TransactionRecord)
    (limit : Nat) : List DifficultyPoint :=
  if (sortByLe nhDescBlockindex nhs).take limit ≠ [] then
    nhDerivation nhs limit
  else if (sortByLe blockRecDescHeight blocks).take limit ≠ [] then
    blockDerivation blocks limit
  else
    txReconstruction nhs txes limit

/-- With a positive limit, the sorted-and-limited read of a collection
is empty exactly when the collection is. -/
theorem sortTake_eq_nil {α : Type} (le : α → α → Bool) (l : List α)
    (limit : Nat) (hlim : 0 < limit) :
    ((sortByLe le l).take limit = []) ↔ l = [] := by
  constructor
  · intro h
    have hlen := congrArg List.length h
    rw [List.length_take, length_sortByLe, List.length_nil] at hlen
    rcases Nat.min_eq_zero_iff.mp hlen with h0 | h0
    · omega
    · exact List.length_eq_zero.mp h0
  · intro h
    subst h
    simp [sortByLe]

/-- Claim C8: `getDifficultyHistory` applies a cascading source
preference in which the first non-empty source wins — the
network-history derivation if that source is non-empty, else the
block-store derivation if that source is non-empty (with one point per
stored block up to `limit`), else per-height reconstruction from the
transaction log in which heights with no transaction are omitted — and
in every case the result is sorted ascending by height. -/
theorem claim_C8_difficulty_history (nhs : List NetworkHistorySnapshot)
    (blocks : List BlockRecord) (txes : List TransactionRecord)
    (limit : Nat) (hlim : 0 < limit) :
    (nhs ≠ [] →
      getDifficultyHistory nhs blocks txes limit = nhDerivation nhs limit) ∧
    (nhs = [] → blocks ≠ [] →
      getDifficultyHistory nhs blocks txes limit = blockDerivation blocks limit ∧
      (getDifficultyHistory nhs blocks txes limit).length
        = min limit blocks.length) ∧
    (nhs = [] → blocks = [] →
      ∀ p ∈ getDifficultyHistory nhs blocks txes limit,
        ∃ t ∈ txes, t.blockindex = p.blockHeight) ∧
    (getDifficultyHistory nhs blocks txes limit).Pairwise
      (fun a b => a.blockHeight ≤ b.blockHeight) := by
  have hnhNil := sortTake_eq_nil nhDescBlockindex nhs limit hlim
  have hblNil := sortTake_eq_nil blockRecDescHeight blocks limit hlim
  have sortedNh : ∀ l : List NetworkHistorySnapshot,
      ((sortByLe nhAscBlockindex l).map
        (fun h => (⟨h.blockindex, h.difficulty_pow, h.timestamp⟩ :
          DifficultyPoint))).Pairwise
        (fun a b => a.blockHeight ≤ b.blockHeight) := by
    intro l
    refine List.Pairwise.map _ (fun a b h => of_decide_eq_true h)
      (sorted_sortByLe nhAscBlockindex ?_ ?_ l)
    · intro a b c hab hbc
      exact decide_eq_true
        (Nat.le_trans (of_decide_eq_true hab) (of_decide_eq_true hbc))
    · intro a b
      exact (Nat.le_total a.blockindex b.blockindex).imp
        decide_eq_true decide_eq_true
  have sortedBl : ∀ l : List BlockRecord,
      ((sortByLe blockRecAscHeight l).map
        (fun b => (⟨b.height, b.difficulty, b.timestamp⟩ :
          DifficultyPoint))).Pairwise
        (fun a b => a.blockHeight ≤ b.blockHeight) := by
    intro l
    refine List.Pairwise.map _ (fun a b h => of_decide_eq_true h)
      (sorted_sortByLe blockRecAscHeight ?_ ?_ l)
    · intro a b c hab hbc
      exact decide_eq_true
        (Nat.le_trans (of_decide_eq_true hab) (of_decide_eq_true hbc))
    · intro a b
      exact (Nat.le_total a.height b.height).imp decide_eq_true decide_eq_true
  have sortedPts : ∀ l : List DifficultyPoint,
      (sortByLe pointAscHeight l).Pairwise
        (fun a b => a.blockHeight ≤ b.blockHeight) := by
    intro l
    refine List.Pairwise.imp (fun h => of_decide_eq_true h)
      (sorted_sortByLe pointAscHeight ?_ ?_ l)
    · intro a b c hab hbc
      exact decide_eq_true
        (Nat.le_trans (of_decide_eq_true hab) (of_decide_eq_true hbc))
    · intro a b
      exact (Nat.le_total a.blockHeight b.blockHeight).imp
        decide_eq_true decide_eq_true
  refine ⟨?_, ?_, ?_, ?_⟩
  · intro hne
    unfold getDifficultyHistory
    rw [if_pos (fun h => hne (hnhNil.mp h))]
  · intro hnil hbne
    have h1 : (sortByLe nhDescBlockindex nhs).take limit = [] :=
      hnhNil.mpr hnil
    unfold getDifficultyHistory
    rw [if_neg (not_not_intro h1), if_pos (fun h => hbne (hblNil.mp h))]
    refine ⟨rfl, ?_⟩
    unfold blockDerivation
    rw [List.length_map, length_sortByLe, List.length_take, length_sortByLe]
  · intro hnil hbnil
    have h1 : (sortByLe nhDescBlockindex nhs).take limit = [] :=
      hnhNil.mpr hnil
    have h2 : (sortByLe blockRecDescHeight blocks).take limit = [] :=
      hblNil.mpr hbnil
    unfold getDifficultyHistory
    rw [if_neg (not_not_intro h1), if_neg (not_not_intro h2)]
    intro p hp
    unfold txReconstruction at hp
    cases hh : (sortByLe txDescBlockindex txes).head? with
    | none =>
      rw [hh] at hp
      cases hp
    | some latest =>
      rw [hh] at hp
      simp only at hp
      rw [mem_sortByLe, List.mem_filterMap] at hp
      obtain ⟨hgt, hmem, hf⟩ := hp
      cases hfind : txes.find? (fun t => t.blockindex == hgt) with
      | none =>
        rw [hfind] at hf
        cases hf
      | some tx =>
        rw [hfind] at hf
        obtain rfl := Option.some.inj hf
        exact ⟨tx, List.mem_of_find?_eq_some hfind,
          by simpa using List.find?_some hfind⟩
  · unfold getDifficultyHistory
    by_cases hc1 : (sortByLe nhDescBlockindex nhs).take limit = []
    · rw [if_neg (not_not_intro hc1)]
      by_cases hc2 : (sortByLe blockRecDescHeight blocks).take limit = []
      · rw [if_neg (not_not_intro hc2)]
        unfold txReconstruction
        cases hh : (sortByLe txDescBlockindex txes).head? with
        | none => exact List.Pairwise.nil
        | some latest =>
          simp only
          exact sortedPts _
      · rw [if_pos hc2]
        exact sortedBl _
    · rw [if_pos hc1]
      exact sortedNh _

/-- Concrete instance of C8: empty network-history source, a block
source of five entries, `limit = 50` — the result is the block-source
derivation and has length 5. -/
theorem claim_C8_witness :
    getDifficultyHistory []
        [⟨1, "h1", 1, 10⟩, ⟨2, "h2", 2, 20⟩, ⟨3, "h3", 3, 30⟩,
         ⟨4, "h4", 4, 40⟩, ⟨5, "h5", 5, 50⟩] [] 50
      = blockDerivation
          [⟨1, "h1", 1, 10⟩, ⟨2, "h2", 2, 20⟩, ⟨3, "h3", 3, 30⟩,
           ⟨4, "h4", 4, 40⟩, ⟨5, "h5", 5, 50⟩] 50 ∧
    (getDifficultyHistory []
        [⟨1, "h1", 1, 10⟩, ⟨2, "h2", 2, 20⟩, ⟨3, "h3", 3, 30⟩,
         ⟨4, "h4", 4, 40⟩, ⟨5, "h5", 5, 50⟩] [] 50).length = 5 := by
  have h := claim_C8_difficulty_history []
    [⟨1, "h1", 1, 10⟩, ⟨2, "h2", 2, 20⟩, ⟨3, "h3", 3, 30⟩,
     ⟨4, "h4", 4, 40⟩, ⟨5, "h5", 5, 50⟩] [] 50 (by decide)
  have hb := h.2.1 rfl (List.cons_ne_nil _ _)
  exact ⟨hb.1, hb.2⟩

/-! ### Error-handling boundary of the public operations -/

/-- Function `getDifficultyHistory` as a public operation: the three
collection reads (whose success values feed the pure cascade) wrapped
in the recovery handler that returns an empty list on failure. -/
def getDifficultyHistoryOp
    (reads : Except Unit
      (List NetworkHistorySnapshot × List BlockRecord ×
        List TransactionRecord))
    (limit : Nat) : Except Unit (List DifficultyPoint) :=
  match reads with
  | Except.ok r => Except.ok (getDifficultyHistory r.1 r.2.1 r.2.2 limit)
  | Except.error _ => Except.ok []

/-- Claim C3 (as stated) is false: `getMiningStats` has no top-level
recovery handler, so with an empty `coinstats` collection the
`coinStats.count` dereference throws and the error value reaches the
caller. -/
theorem claim_C3_counterexample :
    getMiningStats
      { coinstats := Except.ok none,
        latestNetworkHistory := Except.ok none,
        getmininginfo := Except.error (),
        getnetworkhashps := Except.error (),
        findTxAtHeight := fun _ => Except.ok none } = Except.error () := rfl

/-- Claim C3 (amended): each public view operation that wraps its body
in a recovery handler — `getNetworkStats`, `getLatestBlocks`,
`getRecentTransactions`, `getNextBlockHash`, `getMempoolTransactions`,
`getPaginatedBlocks`, `getDifficultyHistory`, `getPeerInfo` — returns a
well-typed value (an empty collection, null, or a zeroed default) for
every behaviour of the storage and RPC sources, never an error value;
operations without such a wrapper (such as `getMiningStats` and
`getBlockByHash`) can propagate failures. -/
theorem claim_C3_guarded_operations (dbn : NetworkStatsDb)
    (agg txesRead pageRead : Except Unit (List TransactionRecord))
    (nbdb : NextBlockDb) (mdb : MempoolDb)
    (diffReads : Except Unit
      (List NetworkHistorySnapshot × List BlockRecord ×
        List TransactionRecord))
    (peersDb peersRpc : Except Unit (List PeerRecord))
    (page limit : Nat) :
    (∃ v, getNetworkStats dbn = Except.ok v) ∧
    (∃ v, getLatestBlocksOp agg limit = Except.ok v) ∧
    (∃ v, getRecentTransactions txesRead limit = Except.ok v) ∧
    (∃ v, getNextBlockHash nbdb = Except.ok v) ∧
    (∃ v, getMempoolTransactions mdb = Except.ok v) ∧
    (∃ v, getPaginatedBlocks pageRead page limit = Except.ok v) ∧
    (∃ v, getDifficultyHistoryOp diffReads limit = Except.ok v) ∧
    (∃ v, getPeerInfo peersDb peersRpc = Except.ok v) := by
  refine ⟨?_, ?_, ?_, ?_, ?_, ?_, ?_, ?_⟩
  · unfold getNetworkStats
    cases getNetworkStatsBody dbn with
    | ok v => exact ⟨v, rfl⟩
    | error e => exact ⟨networkStatsFallback, rfl⟩
  · cases agg with
    | ok txes => exact ⟨getLatestBlocks txes limit, rfl⟩
    | error e => exact ⟨[], rfl⟩
  · cases txesRead with
    | ok txes => exact ⟨(sortByLe txDescTimestamp txes).take limit, rfl⟩
    | error e => exact ⟨[], rfl⟩
  · unfold getNextBlockHash
    cases getNextBlockHashBody nbdb with
    | ok v => exact ⟨v, rfl⟩
    | error e => exact ⟨none, rfl⟩
  · unfold getMempoolTransactions
    cases getMempoolTransactionsBody mdb with
    | ok v => exact ⟨v, rfl⟩
    | error e => exact ⟨([], ⟨0, 0, 0⟩), rfl⟩
  · cases pageRead with
    | ok txes => exact ⟨getPaginatedBlocksBody txes page limit, rfl⟩
    | error e =>
      exact ⟨([], { currentPage := page, totalPages := 1, totalItems := 0 }),
        rfl⟩
  · cases diffReads with
    | ok r => exact ⟨getDifficultyHistory r.1 r.2.1 r.2.2 limit, rfl⟩
    | error e => exact ⟨[], rfl⟩
  · cases peersDb with
    | error e => exact ⟨[], rfl⟩
    | ok peers =>
      show ∃ v, (if sortByLe peerDescLastsend peers ≠ [] then
          Except.ok (sortByLe peerDescLastsend peers)
        else
          match peersRpc with
          | Except.ok rpcPeers => Except.ok rpcPeers
          | Except.error _ => Except.ok []) = Except.ok v
      by_cases hs : sortByLe peerDescLastsend peers ≠ []
      · rw [if_pos hs]
        exact ⟨sortByLe peerDescLastsend peers, rfl⟩
      · rw [if_neg hs]
        cases peersRpc with
        | ok rpcPeers => exact ⟨rpcPeers, rfl⟩
        | error e => exact ⟨[], rfl⟩

end AdvcExplorer
